import Mathlib

/-!
# Rosetta snippets CLI: a verification development

A shallow embedding of `main.go` (package `main` of `github.com/barthr/rosetta`).

* A Go `string` is an immutable byte sequence; it is embedded as a list of
  byte values (`GoString`).
* `strings.ToLower`, `strings.Contains`, `math.Abs`, the conversions
  `float64(int)` and `int(float64)`, and `fmt.Scanln` belong to the Go
  language and its standard library; they are embedded from their documented
  behaviour.
* The packages `fetcher` and `settings` are imported by `main.go`; what
  `main.go` needs of them is a parameter, or is modelled from the
  specification where a definition says so.
* Process effects (standard output, standard input, the settings store, the
  browser) are an explicit `World` passed through every command, and a
  command ends in an `Outcome`.
-/

namespace Rosetta

/-! ## Go strings -/

/-- A Go string: a sequence of bytes (each below 256 in a well-formed value). -/
abbrev GoString := List Nat

/-- The bytes of an ASCII literal. -/
def ascii (s : String) : GoString := s.data.map Char.toNat

/-- The byte test `c < utf8.RuneSelf` over a whole string (`strings.ToLower`, first loop). -/
def isASCII (s : GoString) : Bool := s.all (fun c => decide (c < 128))

/-- The flag `hasUpper` of `strings.ToLower`: some byte lies in `'A'..'Z'`. -/
def hasUpper (s : GoString) : Bool := s.any (fun c => decide (65 ≤ c ∧ c ≤ 90))

/-- The byte map of the ASCII path of `strings.ToLower`: `c += 'a' - 'A'` for `'A' <= c <= 'Z'`. -/
def lowerByte (c : Nat) : Nat := if 65 ≤ c ∧ c ≤ 90 then c + 32 else c

/-- Go `strings.ToLower`. An ASCII-only string is lowered byte by byte (and returned
as it is when it has no upper-case letter); any other string goes through
`Map(unicode.ToLower, s)`, which is the parameter `unicodeLower`. -/
def ToLower (unicodeLower : GoString → GoString) (s : GoString) : GoString :=
  if isASCII s then
    if hasUpper s then s.map lowerByte else s
  else unicodeLower s

/-- Go `strings.HasPrefix`: `len(s) >= len(prefix) && s[:len(prefix)] == prefix`. -/
def HasPrefix (s pre : GoString) : Bool :=
  decide (pre.length ≤ s.length) && decide (s.take pre.length = pre)

/-- The scan behind Go `strings.Index`: the first offset at or after `i` where
`substr` occurs, or `-1`; `s` is what is left of the string from offset `i` on. -/
def indexFrom (substr : GoString) : GoString → Nat → Int
  | [], i => if substr = [] then (i : Int) else -1
  | c :: s, i => if HasPrefix (c :: s) substr then (i : Int) else indexFrom substr s (i + 1)

/-- Go `strings.Index`: the index of the first instance of `substr` in `s`, or `-1`. -/
def Index (s substr : GoString) : Int := indexFrom substr s 0

/-- Go `strings.Contains`: `Index(s, substr) >= 0`. -/
def Contains (s substr : GoString) : Bool := decide (Index s substr ≥ 0)

/-! ## `match` (main.go, lines 173-183) -/

/-- The function `match` of main.go (`match` is a keyword here, hence the underscore):
the loop appends to `result` every task whose lower-case form contains the
lower-case form of the term. -/
def match_ (unicodeLower : GoString → GoString) (items : List GoString) (term : GoString) :
    List GoString :=
  items.foldl
    (fun result task =>
      if Contains (ToLower unicodeLower task) (ToLower unicodeLower term) then result ++ [task]
      else result)
    []

/-- The words of the specification for `Match`: a task is kept when its lower-case
form contains the lower-case form of the term as a substring. -/
def containsFold (unicodeLower : GoString → GoString) (term task : GoString) : Prop :=
  ToLower unicodeLower term <:+: ToLower unicodeLower task

instance (unicodeLower : GoString → GoString) (term task : GoString) :
    Decidable (containsFold unicodeLower term task) := by
  unfold containsFold; infer_instance

/-- The specification of `Match`: the order-preserving filter of `items`. -/
def matchSpec (unicodeLower : GoString → GoString) (items : List GoString) (term : GoString) :
    List GoString :=
  items.filter (fun task => decide (containsFold unicodeLower term task))

/-! ## `validIndex` (main.go, lines 151-159)

`validIndex` computes `int(math.Abs(float64(index)))`. Every `float64` that
arises from an `int` is a whole number, so such a float is embedded as the
integer it denotes. Go's `int` is taken to be 64 bits wide. -/

/-- The number of low bits a natural number loses when it is rounded to the 53-bit
significand of a `float64`: the least `e` with `n / 2 ^ e < 2 ^ 53` (the first
argument bounds the recursion; `n` itself is always enough). -/
def excessBits : Nat → Nat → Nat
  | 0, _ => 0
  | fuel + 1, n => if n < 2 ^ 53 then 0 else excessBits fuel (n / 2) + 1

/-- IEEE 754 round-to-nearest, ties-to-even, of a natural number to a `float64`
(exact below `2 ^ 53`; no overflow to infinity in the range of a 64-bit integer). -/
def roundFloat64 (n : Nat) : Nat :=
  let e := excessBits n n
  let q := n / 2 ^ e
  let r := n % 2 ^ e
  if 2 * r < 2 ^ e ∨ (2 * r = 2 ^ e ∧ q % 2 = 0) then q * 2 ^ e else (q + 1) * 2 ^ e

/-- The Go conversion `float64(i)` of an `int`: the nearest `float64`, sign kept. -/
def float64OfInt (i : Int) : Int :=
  if i < 0 then -(roundFloat64 i.natAbs : Int) else (roundFloat64 i.natAbs : Int)

/-- Go `math.Abs` on a whole-number float: exact. -/
def mathAbs (f : Int) : Int := (f.natAbs : Int)

/-- The least value of a 64-bit `int`. -/
def minInt : Int := -(2 ^ 63)

/-- The greatest value of a 64-bit `int`. -/
def maxInt : Int := 2 ^ 63 - 1

/-- The Go conversion `int(f)` of a whole-number `float64`. When `f` fits an `int`
the result is `f`; otherwise the Go specification leaves the result to the
implementation, and `overflow` is the value the platform gives. -/
def intOfFloat64 (overflow : Int) (f : Int) : Int :=
  if minInt ≤ f ∧ f ≤ maxInt then f else overflow

/-- The out-of-range result of `int(f)` on amd64 (`CVTTSD2SQ` yields the "integer
indefinite" value `0x8000000000000000`). -/
def overflowAmd64 : Int := minInt

/-- The out-of-range result of `int(f)` for a too large `f` on arm64 (`FCVTZS` saturates). -/
def overflowArm64 : Int := maxInt

/-- The function `validIndex` of main.go:
`if int(math.Abs(float64(index))) > (len(options) - 1) { return false }; return true`. -/
def validIndex (overflow : Int) (index : Int) (options : List GoString) : Bool :=
  if intOfFloat64 overflow (mathAbs (float64OfInt index)) > (options.length : Int) - 1 then false
  else true

/-- Go slice indexing `xs[i]` with an `int` index: `none` stands for the run-time
panic "index out of range". -/
def indexGo (xs : List GoString) (i : Int) : Option GoString :=
  if 0 ≤ i ∧ i < (xs.length : Int) then xs.get? i.toNat else none

/-! ## The process: settings, context, effects -/

/-- The type `settings.User`: one field. -/
structure User where
  Language : GoString
  deriving DecidableEq

/-- An observable effect of the process. -/
inductive Event
  | print (text : GoString)
  | scan (got : Option Int)
  | writeSettings (u : User)
  | openWebsite (task language : GoString)
  deriving DecidableEq

/-- The state of the process: the package variable `s`, the persisted settings
(`none` when nothing is stored), the number of `fmt.Scanln` calls made so far,
and the effects so far, oldest first. -/
structure World where
  s : User
  stored : Option User
  reads : Nat
  trace : List Event
  deriving DecidableEq

/-- How a command handler ends: it returns to `app.Run`, it calls `os.Exit(code)`,
or it panics on an out-of-range index. -/
inductive Outcome
  | returned
  | exited (code : Int)
  | panicked
  deriving DecidableEq

/-- What a command handler reads of `*cli.Context`: the positional arguments, the
string flag `-l` (its `Destination` is the package variable `searchLang`, so
`c.String("l")` and `searchLang` are one value) and the boolean flag `-r`. -/
structure Context where
  args : List GoString
  l : GoString
  r : Bool
  deriving DecidableEq

/-- The method `c.NArg()`. -/
def Context.NArg (c : Context) : Nat := c.args.length

/-- What `searchCommand` takes from outside `main.go`: the platform's out-of-range
`int(f)`, the Unicode path of `strings.ToLower`, `fetcher.WebsiteURL`, the
outcome of the `k`-th `fmt.Scanln(&input)` on standard input (`some v` when the
integer `v` was stored, `none` when nothing was stored: end of input or text
that is no integer), the result of `fetcher.GetCache()` (`none` for an error)
and the task list the background fetch sends on the channel `repo`. -/
structure Env where
  overflow : Int
  unicodeLower : GoString → GoString
  WebsiteURL : GoString → GoString → GoString
  stdin : Nat → Option Int
  cache : Option (List GoString)
  repo : List GoString

/-- Append one effect to the trace. -/
def World.emit (w : World) (e : Event) : World := { w with trace := w.trace ++ [e] }

/-- Go `fmt.Print` of one string. -/
def Print (text : GoString) (w : World) : World := w.emit (Event.print text)

/-- Go `fmt.Println` of one string: the string and a newline. -/
def Println (text : GoString) (w : World) : World := w.emit (Event.print (text ++ [10]))

/-- The text `fmt.Printf("%d) %s \n", i, name)` writes. -/
def optionLine (i : Nat) (name : GoString) : GoString :=
  ascii (Nat.repr i) ++ ascii ") " ++ name ++ ascii " \n"

/-- Modelled from the spec: `settings.ToUpperCaseFirst` is not under src/; the
specification says of the `-l` value "capitalized first letter". The first
byte is upper-cased when it is an ASCII lower-case letter; the rest is kept. -/
def ToUpperCaseFirst : GoString → GoString
  | [] => []
  | c :: rest => (if 97 ≤ c ∧ c ≤ 122 then c - 32 else c) :: rest

/-- Modelled from the spec: the method `ReadSettings` of `settings.User` is not
under src/; the specification says it "returns stored settings or a zero-value
default if none exist". -/
def ReadSettings (w : World) : User :=
  match w.stored with
  | some u => u
  | none => { Language := [] }

/-- Modelled from the spec: the method `WriteSettings` of `settings.User` is not
under src/; the specification says it "persists the value, overwriting prior
content". The value is the receiver, the package variable `s`. -/
def WriteSettings (w : World) : World :=
  { w with stored := some w.s, trace := w.trace ++ [Event.writeSettings w.s] }

/-! ## The command handlers

The Go variable `matches` is written `matched` (`matches` is a keyword here). -/

/-- The function `languageCommand` of main.go (lines 87-95). The test `c.NArg() > 0`
followed by `c.Args()[0]` is the match on a non-empty argument list. -/
def languageCommand (c : Context) (w : World) : World × Outcome :=
  match c.args with
  | arg :: _ =>
    let w1 := { w with s := { w.s with Language := arg } }
    (WriteSettings w1, Outcome.exited 0)
  | [] => (Println (ascii "Please provide a language!") w, Outcome.exited 13)

/-- The function `printOptions` of main.go (lines 162-171); the second component is
the code of `os.Exit` when the function ends the process. -/
def printOptions (matched : List GoString) (w : World) : World × Option Int :=
  if matched.length ≤ 0 then (Println (ascii "Try again!") w, some 1)
  else (matched.enum.foldl (fun acc im => Print (optionLine im.1 im.2) acc) w, none)

/-- The function `getSelectionFromUser` of main.go (lines 144-149): `input` starts
at zero and keeps that value when `fmt.Scanln` stores nothing. -/
def getSelectionFromUser (env : Env) (w : World) : Int × World :=
  let w1 := Print (ascii "Enter selection number: ") w
  let got := env.stdin w1.reads
  (got.getD 0, { w1 with reads := w1.reads + 1, trace := w1.trace ++ [Event.scan got] })

/-- The rejection message of the reprompt loop. -/
def rejection : GoString := ascii "U cannot choose a number which is not in the list"

/-- The loop `for !validIndex(input, matched) { ... }` of `searchCommand`
(lines 127-130). `fuel` bounds the number of iterations; `none` means the bound
was reached with `input` still rejected. -/
def selectionLoop (env : Env) (matched : List GoString) : Nat → Int → World → Option (Int × World)
  | fuel, input, w =>
    if validIndex env.overflow input matched then some (input, w)
    else
      match fuel with
      | 0 => none
      | fuel + 1 =>
        let next := getSelectionFromUser env (Println rejection w)
        selectionLoop env matched fuel next.1 next.2

/-- Lines 125-130 of `searchCommand`: the first prompt and the reprompt loop. -/
def promptSelection (env : Env) (matched : List GoString) (fuel : Nat) (w : World) :
    Option (Int × World) :=
  let first := getSelectionFromUser env w
  selectionLoop env matched fuel first.1 first.2

/-- Lines 118-123 of `searchCommand`: the language the search is made for. -/
def resolveLanguage (c : Context) (w : World) : GoString :=
  if c.l.length > 0 then ToUpperCaseFirst c.l else (ReadSettings w).Language

/-- Lines 132-137 of `searchCommand`: print the address or open it. -/
def finishSearch (env : Env) (c : Context) (matched : List GoString) (input : Int)
    (searchInput : GoString) (w : World) : World × Outcome :=
  if c.r then
    match indexGo matched input with
    | none => (w, Outcome.panicked)
    | some task => (Println (env.WebsiteURL task searchInput) w, Outcome.returned)
  else
    match indexGo matched input with
    | none => (w, Outcome.panicked)
    | some task => (w.emit (Event.openWebsite task searchInput), Outcome.exited 0)

/-- Lines 102-106 of `searchCommand`: the cached task list, or else the list
received from the channel `repo`. -/
def Env.items (env : Env) : List GoString :=
  match env.cache with
  | some cached => cached
  | none => env.repo

/-- The function `searchCommand` of main.go (lines 101-142). The test
`c.NArg() > 0` followed by `c.Args()[0]` is the match on a non-empty argument
list. `fuel` bounds the iterations of the reprompt loop; the result is `none`
when that bound is reached. -/
def searchCommand (env : Env) (fuel : Nat) (c : Context) (w : World) : Option (World × Outcome) :=
  let items := env.items
  match c.args with
  | args :: _ =>
    let matched := match_ env.unicodeLower items args
    match printOptions matched w with
    | (w1, some code) => some (w1, Outcome.exited code)
    | (w1, none) =>
      let searchInput := resolveLanguage c w1
      match promptSelection env matched fuel w1 with
      | none => none
      | some (input, w2) => some (finishSearch env c matched input searchInput w2)
  | [] =>
    match printOptions items w with
    | (w1, some code) => some (w1, Outcome.exited code)
    | (w1, none) => some (w1, Outcome.exited 0)

/-! ## Vocabulary for the reprompt loop -/

/-- The value the `j`-th call of `getSelectionFromUser` after the world `w` returns:
the integer `fmt.Scanln` stored, or zero when it stored nothing. -/
def readValue (env : Env) (w : World) (j : Nat) : Int := (env.stdin (w.reads + j)).getD 0

/-- The values `input` takes in the reprompt loop: the one it enters with, then
what the successive calls of `getSelectionFromUser` return, the first of them
being call number `r` of the process. -/
def nthInput (env : Env) (r : Nat) (input : Int) : Nat → Int
  | 0 => input
  | j + 1 => (env.stdin (r + j)).getD 0

/-- The effects of `k` iterations of the reprompt loop, the first read being call
number `r`: each iteration prints the rejection message, prompts and reads. -/
def loopTrace (env : Env) : Nat → Nat → List Event
  | _, 0 => []
  | r, k + 1 =>
    [Event.print (ascii "U cannot choose a number which is not in the list\n"),
      Event.print (ascii "Enter selection number: "), Event.scan (env.stdin r)]
      ++ loopTrace env (r + 1) k

/-- The effects of the first prompt followed by `k` iterations of the reprompt loop. -/
def promptTrace (env : Env) (r k : Nat) : List Event :=
  [Event.print (ascii "Enter selection number: "), Event.scan (env.stdin r)]
    ++ loopTrace env (r + 1) k

/-- The effects the prompt and the reprompt loop can have: the prompt, the rejection
message, a read. -/
def isPromptEvent : Event → Bool
  | Event.print text =>
    decide (text = ascii "Enter selection number: "
      ∨ text = ascii "U cannot choose a number which is not in the list\n")
  | Event.scan _ => true
  | Event.writeSettings _ => false
  | Event.openWebsite _ _ => false

/-! ## A concrete run, for evaluation -/

/-- A stand-in for `fetcher.WebsiteURL` in concrete runs: the task, `#`, the language. -/
def demoURL (task language : GoString) : GoString := task ++ ascii "#" ++ language

/-- A concrete environment: amd64, the catalog of the specification's end-to-end
example in the cache, and the given outcomes of the successive `fmt.Scanln` calls
(end of input after them). -/
def demoEnv (answers : List (Option Int)) : Env :=
  { overflow := overflowAmd64
    unicodeLower := id
    WebsiteURL := demoURL
    stdin := fun k => (answers.get? k).join
    cache := some [ascii "100 doors", ascii "A+B", ascii "Abundant numbers"]
    repo := [] }

/-- A fresh process: nothing stored, nothing read, nothing printed. -/
def freshWorld : World :=
  { s := { Language := [] }, stored := none, reads := 0, trace := [] }

/-! ## Substring search -/

theorem hasPrefix_iff (s pre : GoString) : HasPrefix s pre = true ↔ pre <+: s := by
  unfold HasPrefix
  rw [Bool.and_eq_true, decide_eq_true_eq, decide_eq_true_eq, List.prefix_iff_eq_take]
  constructor
  · rintro ⟨_, h⟩
    exact h.symm
  · intro h
    refine ⟨?_, h.symm⟩
    have hl := congrArg List.length h
    rw [List.length_take] at hl
    omega

theorem indexFrom_nonneg_iff (substr : GoString) :
    ∀ (s : GoString) (i : Nat), 0 ≤ indexFrom substr s i ↔ substr <:+: s := by
  intro s
  induction s with
  | nil =>
    intro i
    unfold indexFrom
    by_cases h : substr = []
    · simp [h]
    · simp [h]
  | cons c s ih =>
    intro i
    rw [indexFrom, List.infix_cons_iff]
    by_cases h : HasPrefix (c :: s) substr = true
    · rw [if_pos h]
      have hp := (hasPrefix_iff (c :: s) substr).1 h
      constructor
      · intro _
        exact Or.inl hp
      · intro _
        exact Int.ofNat_nonneg i
    · rw [if_neg h, ih (i + 1)]
      have hp : ¬ substr <+: c :: s := fun hp => h ((hasPrefix_iff (c :: s) substr).2 hp)
      constructor
      · intro hi
        exact Or.inr hi
      · rintro (hi | hi)
        · exact absurd hi hp
        · exact hi

theorem contains_iff (s substr : GoString) : Contains s substr = true ↔ substr <:+: s := by
  unfold Contains Index
  rw [decide_eq_true_eq]
  exact indexFrom_nonneg_iff substr s 0

/-! ## `match` is the filter of the specification -/

theorem match_foldl_eq (unicodeLower : GoString → GoString) (term : GoString) :
    ∀ (items acc : List GoString),
      items.foldl
        (fun result task =>
          if Contains (ToLower unicodeLower task) (ToLower unicodeLower term) then result ++ [task]
          else result)
        acc
      = acc ++ matchSpec unicodeLower items term := by
  intro items
  induction items with
  | nil =>
    intro acc
    simp [matchSpec]
  | cons x xs ih =>
    intro acc
    rw [List.foldl_cons, ih]
    by_cases h : Contains (ToLower unicodeLower x) (ToLower unicodeLower term) = true
    · have hc : containsFold unicodeLower term x := (contains_iff _ _).1 h
      simp [matchSpec, List.filter_cons, h, hc]
    · have hc : ¬ containsFold unicodeLower term x := fun hc => h ((contains_iff _ _).2 hc)
      simp [matchSpec, List.filter_cons, h, hc]

theorem match_eq_matchSpec (unicodeLower : GoString → GoString) (items : List GoString)
    (term : GoString) : match_ unicodeLower items term = matchSpec unicodeLower items term := by
  unfold match_
  rw [match_foldl_eq]
  rfl

theorem mem_match_iff (unicodeLower : GoString → GoString) (items : List GoString)
    (term x : GoString) :
    x ∈ match_ unicodeLower items term ↔ x ∈ items ∧ containsFold unicodeLower term x := by
  rw [match_eq_matchSpec]
  simp [matchSpec, List.mem_filter]

/-- The empty term matches every task: `match(items, "")` is `items`. -/
theorem match_empty_term (unicodeLower : GoString → GoString) (items : List GoString) :
    match_ unicodeLower items [] = items := by
  rw [match_eq_matchSpec]
  unfold matchSpec
  rw [List.filter_eq_self]
  intro task _
  have hlow : ToLower unicodeLower [] = [] := rfl
  simp [containsFold, hlow]

/-- The end-to-end example of the specification: the term `100` over the catalog
`100 doors`, `A+B`, `Abundant numbers` selects `100 doors`, printed as option 0. -/
theorem match_end_to_end (unicodeLower : GoString → GoString) :
    match_ unicodeLower [ascii "100 doors", ascii "A+B", ascii "Abundant numbers"] (ascii "100")
      = [ascii "100 doors"]
    ∧ (printOptions [ascii "100 doors"] freshWorld).1.trace
      = [Event.print (ascii "0) 100 doors \n")] :=
  ⟨rfl, rfl⟩

/-- C1: `match(items, term)` is the order-preserving filter of `items` that keeps
exactly the tasks whose lower-case form contains the lower-case form of `term`:
it equals that filter, it is a subsequence of `items`, every task it keeps
contains the term case-insensitively, and no task that contains it is dropped. -/
theorem match_is_filter (unicodeLower : GoString → GoString) (items : List GoString)
    (term : GoString) :
    match_ unicodeLower items term = matchSpec unicodeLower items term
    ∧ List.Sublist (match_ unicodeLower items term) items
    ∧ (∀ x ∈ match_ unicodeLower items term, containsFold unicodeLower term x)
    ∧ (∀ x ∈ items, containsFold unicodeLower term x → x ∈ match_ unicodeLower items term) := by
  refine ⟨match_eq_matchSpec unicodeLower items term, ?_, ?_, ?_⟩
  · rw [match_eq_matchSpec]
    exact List.filter_sublist items
  · intro x hx
    exact ((mem_match_iff unicodeLower items term x).1 hx).2
  · intro x hx hc
    exact (mem_match_iff unicodeLower items term x).2 ⟨hx, hc⟩

theorem matchSpec_congr_items (unicodeLower : GoString → GoString) (term : GoString)
    (items items' : List GoString)
    (h : List.Forall₂ (fun a b => ToLower unicodeLower a = ToLower unicodeLower b) items items') :
    List.Forall₂ (fun a b => ToLower unicodeLower a = ToLower unicodeLower b)
      (matchSpec unicodeLower items term) (matchSpec unicodeLower items' term) := by
  induction h with
  | nil => exact List.Forall₂.nil
  | @cons a b l l' hab _ ih =>
    have hiff : containsFold unicodeLower term a ↔ containsFold unicodeLower term b := by
      unfold containsFold
      rw [hab]
    by_cases hc : containsFold unicodeLower term a
    · have hc' := hiff.1 hc
      simp only [matchSpec, List.filter_cons, hc, hc', decide_True, if_true] at ih ⊢
      exact List.Forall₂.cons hab ih
    · have hc' : ¬ containsFold unicodeLower term b := fun h' => hc (hiff.2 h')
      simp only [matchSpec, List.filter_cons, hc, hc', decide_False] at ih ⊢
      exact ih

/-- C4: `match` is case-insensitive in both arguments. Two terms with the same
lower-case form select the same tasks; two task lists that agree position by
position up to letter case have results that agree position by position up to
letter case (a task is kept or dropped whatever case it is written in); and
`match(["FooBar"], "foo") = ["FooBar"]`. -/
theorem match_case_insensitive (unicodeLower : GoString → GoString) :
    (∀ (items : List GoString) (t1 t2 : GoString),
        ToLower unicodeLower t1 = ToLower unicodeLower t2 →
        match_ unicodeLower items t1 = match_ unicodeLower items t2)
    ∧ (∀ (items items' : List GoString) (term : GoString),
        List.Forall₂ (fun a b => ToLower unicodeLower a = ToLower unicodeLower b) items items' →
        List.Forall₂ (fun a b => ToLower unicodeLower a = ToLower unicodeLower b)
          (match_ unicodeLower items term) (match_ unicodeLower items' term))
    ∧ match_ unicodeLower [ascii "FooBar"] (ascii "foo") = [ascii "FooBar"]
    ∧ match_ unicodeLower [ascii "foobar"] (ascii "FOO") = [ascii "foobar"]
    ∧ match_ unicodeLower [ascii "FooBar"] (ascii "fob") = [] := by
  refine ⟨?_, ?_, ?_, ?_, ?_⟩
  · intro items t1 t2 h
    unfold match_
    rw [h]
  · intro items items' term h
    rw [match_eq_matchSpec, match_eq_matchSpec]
    exact matchSpec_congr_items unicodeLower term items items' h
  · rfl
  · rfl
  · rfl

/-! ## `validIndex` -/

theorem excessBits_small (fuel n : Nat) (h : n < 2 ^ 53) : excessBits fuel n = 0 := by
  cases fuel with
  | zero => rfl
  | succ f =>
    unfold excessBits
    rw [if_pos h]

theorem roundFloat64_small (n : Nat) (h : n < 2 ^ 53) : roundFloat64 n = n := by
  simp [roundFloat64, excessBits_small n n h, Nat.mod_one]

theorem excessBits_bounds :
    ∀ (fuel n : Nat), n ≤ fuel →
      n / 2 ^ excessBits fuel n < 2 ^ 53
      ∧ (2 ^ 53 ≤ n → 2 ^ 52 ≤ n / 2 ^ excessBits fuel n ∧ 1 ≤ excessBits fuel n) := by
  intro fuel
  induction fuel with
  | zero =>
    intro n hn
    have h0 : n = 0 := Nat.le_zero.1 hn
    subst h0
    simp [excessBits]
  | succ fuel ih =>
    intro n hn
    unfold excessBits
    by_cases hsmall : n < 2 ^ 53
    · rw [if_pos hsmall]
      simp only [pow_zero, Nat.div_one]
      exact ⟨hsmall, fun h => absurd hsmall (Nat.not_lt.2 h)⟩
    · rw [if_neg hsmall]
      have hhalf : n / 2 ≤ fuel := by omega
      obtain ⟨hlt, hge⟩ := ih (n / 2) hhalf
      have hdiv : n / 2 ^ (excessBits fuel (n / 2) + 1) = n / 2 / 2 ^ excessBits fuel (n / 2) := by
        rw [pow_succ, Nat.mul_comm, Nat.div_div_eq_div_mul]
      rw [hdiv]
      refine ⟨hlt, fun _ => ⟨?_, Nat.succ_le_succ (Nat.zero_le _)⟩⟩
      by_cases hh : 2 ^ 53 ≤ n / 2
      · exact (hge hh).1
      · have he : excessBits fuel (n / 2) = 0 := by
          cases fuel with
          | zero => rfl
          | succ f =>
            unfold excessBits
            rw [if_pos (Nat.not_le.1 hh)]
        rw [he]
        simp only [pow_zero, Nat.div_one]
        omega

/-- The parts of a rounding: with `e` the number of dropped bits, `P = 2 ^ e` and
`Q` the kept part, `n = Q + r` with `r < P`, and the result is `Q` or `Q + P`. -/
theorem roundFloat64_parts (n : Nat) (h : 2 ^ 53 ≤ n) :
    ∃ e P Q r : Nat, e = excessBits n n ∧ P = 2 ^ e ∧ 1 ≤ e ∧ n = Q + r ∧ r < P
      ∧ 2 ^ 52 * P ≤ Q ∧ Q + P ≤ 2 ^ 53 * P
      ∧ (roundFloat64 n = Q ∨ (roundFloat64 n = Q + P ∧ P ≤ 2 * r)) := by
  obtain ⟨hlt, hge⟩ := excessBits_bounds n n (Nat.le_refl n)
  obtain ⟨hq, he⟩ := hge h
  have hpos : 0 < 2 ^ excessBits n n := Nat.two_pow_pos _
  refine ⟨excessBits n n, 2 ^ excessBits n n, n / 2 ^ excessBits n n * 2 ^ excessBits n n,
    n % 2 ^ excessBits n n, rfl, rfl, he, ?_, Nat.mod_lt _ hpos, ?_, ?_, ?_⟩
  · rw [Nat.mul_comm]
    exact (Nat.div_add_mod n _).symm
  · exact Nat.mul_le_mul_right _ hq
  · rw [← Nat.succ_mul]
    exact Nat.mul_le_mul_right _ hlt
  · unfold roundFloat64
    by_cases hc : 2 * (n % 2 ^ excessBits n n) < 2 ^ excessBits n n
        ∨ (2 * (n % 2 ^ excessBits n n) = 2 ^ excessBits n n
            ∧ n / 2 ^ excessBits n n % 2 = 0)
    · left
      simp only [hc, if_true]
    · right
      simp only [hc, if_false]
      refine ⟨Nat.succ_mul _ _, ?_⟩
      by_contra hlt2
      exact hc (Or.inl (Nat.not_le.1 hlt2))

theorem roundFloat64_ge (n : Nat) (h : 2 ^ 53 ≤ n) : 2 ^ 53 ≤ roundFloat64 n := by
  obtain ⟨e, P, Q, r, _, hP, he, _, _, hQ, _, hround⟩ := roundFloat64_parts n h
  have hP2 : 2 ≤ P := by
    rw [hP]
    calc 2 = 2 ^ 1 := rfl
      _ ≤ 2 ^ e := Nat.pow_le_pow_right (by decide) he
  rcases hround with hr | ⟨hr, _⟩ <;> rw [hr] <;> omega

theorem roundFloat64_lt (n : Nat) (h : n < 2 ^ 63 - 512) : roundFloat64 n < 2 ^ 63 := by
  by_cases hsmall : n < 2 ^ 53
  · rw [roundFloat64_small n hsmall]
    omega
  · obtain ⟨e, P, Q, r, _, hP, _, hn, hr, hQ, _, hround⟩ :=
      roundFloat64_parts n (Nat.not_lt.1 hsmall)
    have he : e ≤ 10 := by
      by_contra hbig
      have h11 : 2 ^ 11 ≤ P := by
        rw [hP]
        exact Nat.pow_le_pow_right (by decide) (by omega)
      omega
    have hP10 : P ≤ 2 ^ 10 := by
      rw [hP]
      exact Nat.pow_le_pow_right (by decide) he
    rcases hround with hr' | ⟨hr', _⟩ <;> rw [hr'] <;> omega

theorem roundFloat64_top (n : Nat) (hlo : 2 ^ 63 - 512 ≤ n) (hhi : n ≤ 2 ^ 63) :
    roundFloat64 n = 2 ^ 63 := by
  by_cases htop : n = 2 ^ 63
  · rw [htop]
    decide
  · obtain ⟨e, P, Q, r, hexc, hP, _, hn, hr, hQ, hQ', _⟩ := roundFloat64_parts n (by omega)
    have hle : e ≤ 10 := by
      by_contra hbig
      have h11 : 2 ^ 11 ≤ P := by
        rw [hP]
        exact Nat.pow_le_pow_right (by decide) (by omega)
      omega
    have hge : 10 ≤ e := by
      by_contra hlow
      have h9 : P ≤ 2 ^ 9 := by
        rw [hP]
        exact Nat.pow_le_pow_right (by decide) (by omega)
      omega
    have he : excessBits n n = 10 := by omega
    unfold roundFloat64
    rw [he]
    simp only []
    split <;> omega

theorem abs_float64OfInt (i : Int) : mathAbs (float64OfInt i) = (roundFloat64 i.natAbs : Int) := by
  unfold mathAbs float64OfInt
  split
  · rw [Int.natAbs_neg, Int.natAbs_ofNat]
  · rw [Int.natAbs_ofNat]

/-- Below `2 ^ 53` the conversions are exact, and `validIndex` compares the
absolute value of the index with the last position of the list. -/
theorem validIndex_small (overflow i : Int) (options : List GoString)
    (h : i.natAbs < 2 ^ 53) :
    validIndex overflow i options = true ↔ (i.natAbs : Int) ≤ (options.length : Int) - 1 := by
  unfold validIndex
  rw [abs_float64OfInt, roundFloat64_small _ h]
  have hfit : minInt ≤ (i.natAbs : Int) ∧ (i.natAbs : Int) ≤ maxInt := by
    unfold minInt maxInt
    constructor <;> omega
  unfold intOfFloat64
  rw [if_pos hfit]
  by_cases hgt : (i.natAbs : Int) > (options.length : Int) - 1
  · rw [if_pos hgt]
    constructor
    · intro hf
      exact absurd hf (by decide)
    · intro hle
      omega
  · rw [if_neg hgt]
    constructor
    · intro _
      omega
    · intro _
      rfl

/-- Away from the 1025 integers of greatest magnitude (512 positive, 513 negative),
and for a list of at most `2 ^ 53` elements, `validIndex` compares the absolute
value of the index with the last position of the list, whatever the platform. -/
theorem validIndex_in_range (overflow i : Int) (options : List GoString)
    (hi : i.natAbs < 2 ^ 63 - 512) (hlen : options.length ≤ 2 ^ 53) :
    validIndex overflow i options = true ↔ (i.natAbs : Int) ≤ (options.length : Int) - 1 := by
  by_cases hsmall : i.natAbs < 2 ^ 53
  · exact validIndex_small overflow i options hsmall
  · have hge := roundFloat64_ge i.natAbs (Nat.not_lt.1 hsmall)
    have hlt := roundFloat64_lt i.natAbs hi
    unfold validIndex
    rw [abs_float64OfInt]
    have hfit : minInt ≤ (roundFloat64 i.natAbs : Int) ∧ (roundFloat64 i.natAbs : Int) ≤ maxInt := by
      unfold minInt maxInt
      constructor <;> omega
    unfold intOfFloat64
    rw [if_pos hfit, if_pos (by omega)]
    constructor
    · intro hf
      exact absurd hf (by decide)
    · intro hle
      omega

/-- For the 1025 integers of greatest magnitude (magnitude from `2 ^ 63 - 512` up to
the `2 ^ 63` of the least `int`) the float has absolute value `2 ^ 63`, `int(f)`
is out of range, and
`validIndex` compares the platform's out-of-range result with the last position. -/
theorem validIndex_top (overflow i : Int) (options : List GoString)
    (hlo : 2 ^ 63 - 512 ≤ i.natAbs) (hhi : i.natAbs ≤ 2 ^ 63) :
    validIndex overflow i options = true ↔ overflow ≤ (options.length : Int) - 1 := by
  unfold validIndex
  rw [abs_float64OfInt, roundFloat64_top i.natAbs hlo hhi]
  have hout : ¬ (minInt ≤ ((2 ^ 63 : Nat) : Int) ∧ ((2 ^ 63 : Nat) : Int) ≤ maxInt) := by
    unfold minInt maxInt
    omega
  unfold intOfFloat64
  rw [if_neg hout]
  by_cases hgt : overflow > (options.length : Int) - 1
  · rw [if_pos hgt]
    constructor
    · intro hf
      exact absurd hf (by decide)
    · intro hle
      omega
  · rw [if_neg hgt]
    constructor
    · intro _
      omega
    · intro _
      rfl

theorem validIndex_zero (overflow : Int) (options : List GoString) :
    validIndex overflow 0 options = true ↔ options ≠ [] := by
  rw [validIndex_small overflow 0 options (by decide)]
  cases options with
  | nil => simp
  | cons x xs =>
    constructor
    · intro _
      exact List.cons_ne_nil x xs
    · intro _
      simp only [List.length_cons, Int.natAbs_zero]
      push_cast
      omega

/-- C2, evaluated where the code leaves the claim. `float64(index)` of the least
and of the greatest `int` has absolute value `2 ^ 63`, which no `int` holds; with
the amd64 result of that conversion `validIndex` accepts both indices, for the
empty list and for a list of one element, although `abs(i) > len(opts) - 1`,
and a search in which the user answers with the least `int` ends in the panic
of the slice access. With the arm64 result `validIndex` rejects them. -/
theorem validIndex_extreme :
    validIndex overflowAmd64 minInt [] = true
    ∧ validIndex overflowAmd64 maxInt [] = true
    ∧ validIndex overflowAmd64 minInt [ascii "A+B"] = true
    ∧ validIndex overflowArm64 minInt [] = false
    ∧ mathAbs (float64OfInt minInt) = 2 ^ 63
    ∧ mathAbs (float64OfInt maxInt) = 2 ^ 63
    ∧ (searchCommand (demoEnv [some minInt]) 0
        { args := [ascii "a"], l := [], r := true } freshWorld).map Prod.snd
        = some Outcome.panicked := by
  decide

/-- C3, evaluated at a negative index. On every platform `validIndex` accepts `-1`
for a list of two elements, the slice access at `-1` panics, and a search run in
which the user answers `-1` ends in that panic (with `-r` and without it). -/
theorem validIndex_accepts_negative :
    (∀ overflow : Int, validIndex overflow (-1) [ascii "A+B", ascii "Abundant numbers"] = true)
    ∧ indexGo [ascii "A+B", ascii "Abundant numbers"] (-1) = none
    ∧ match_ id (demoEnv [some (-1)]).items (ascii "a") = [ascii "A+B", ascii "Abundant numbers"]
    ∧ (searchCommand (demoEnv [some (-1)]) 0
        { args := [ascii "a"], l := [], r := true } freshWorld).map Prod.snd
        = some Outcome.panicked
    ∧ (searchCommand (demoEnv [some (-1)]) 0
        { args := [ascii "a"], l := [], r := false } freshWorld).map Prod.snd
        = some Outcome.panicked := by
  refine ⟨?_, ?_, ?_, ?_, ?_⟩
  · intro overflow
    exact (validIndex_small overflow (-1) _ (by decide)).2 (by decide)
  · decide
  · decide
  · decide
  · decide

/-! ## `printOptions`, `languageCommand` and the language of a search -/

theorem printOptions_nil (w : World) :
    printOptions [] w
      = ({ w with trace := w.trace ++ [Event.print (ascii "Try again!\n")] }, some 1) := by
  rfl

theorem printOptions_cons (x : GoString) (xs : List GoString) (w : World) :
    printOptions (x :: xs) w
      = ((x :: xs).enum.foldl (fun acc im => Print (optionLine im.1 im.2) acc) w, none) := by
  unfold printOptions
  rw [if_neg]
  simp

theorem printLines_eq (lines : List (Nat × GoString)) :
    ∀ w : World,
      lines.foldl (fun acc im => Print (optionLine im.1 im.2) acc) w
        = { w with
            trace := w.trace ++ lines.map (fun im => Event.print (optionLine im.1 im.2)) } := by
  induction lines with
  | nil =>
    intro w
    simp
  | cons l ls ih =>
    intro w
    rw [List.foldl_cons, ih]
    simp [Print, World.emit]

/-- What `printOptions` does with a list that is not empty: one line per task, in
order, numbered from zero, and no exit. -/
theorem printOptions_of_ne_nil (matched : List GoString) (w : World) (h : matched ≠ []) :
    printOptions matched w
      = ({ w with
            trace := w.trace
              ++ matched.enum.map (fun im => Event.print (optionLine im.1 im.2)) }, none) := by
  cases matched with
  | nil => exact absurd rfl h
  | cons x xs => rw [printOptions_cons, printLines_eq]

/-- C5: when the search term matches no task, `searchCommand` prints the failure
message and exits with code 1, whatever the bound on the reprompt loop: the
final world differs from the initial one by that one line only, so nothing was
read from the user, no address was printed and none was opened. And
`printOptions` exits with code 1 exactly when its list is empty; otherwise it
does not exit. -/
theorem search_no_match (env : Env) (fuel : Nat) (c : Context) (w : World)
    (term : GoString) (rest : List GoString) (hargs : c.args = term :: rest)
    (hnone : ∀ task ∈ env.items, ¬ containsFold env.unicodeLower term task) :
    searchCommand env fuel c w
      = some ({ w with trace := w.trace ++ [Event.print (ascii "Try again!\n")] },
          Outcome.exited 1)
    ∧ (∀ (matched : List GoString) (w' : World),
        ((printOptions matched w').2 = some 1 ↔ matched = [])
        ∧ ((printOptions matched w').2 = none ↔ matched ≠ [])) := by
  constructor
  · have hempty : match_ env.unicodeLower env.items term = [] := by
      rw [List.eq_nil_iff_forall_not_mem]
      intro x hx
      have hm := (mem_match_iff env.unicodeLower env.items term x).1 hx
      exact hnone x hm.1 hm.2
    unfold searchCommand
    simp only [hargs, hempty, printOptions_nil]
  · intro matched w'
    cases matched with
    | nil => simp [printOptions_nil]
    | cons x xs => simp [printOptions_cons]

/-- C5 at a concrete input: the catalog of the demo environment and the term `zzz`. -/
theorem search_no_match_witness :
    (∀ task ∈ (demoEnv []).items, ¬ containsFold id (ascii "zzz") task)
    ∧ searchCommand (demoEnv []) 0 { args := [ascii "zzz"], l := [], r := false } freshWorld
      = some ({ freshWorld with trace := [Event.print (ascii "Try again!\n")] },
          Outcome.exited 1) :=
  ⟨by decide,
   (search_no_match (demoEnv []) 0 { args := [ascii "zzz"], l := [], r := false } freshWorld
      (ascii "zzz") [] rfl (by decide)).1⟩

/-- C7: the language of a search. A non-empty `-l` value gives that value with its
first letter capitalized, whatever is stored; with no `-l` value the language is
the one of the settings read, which is the stored one, or the empty zero value
when nothing is stored. -/
theorem resolveLanguage_spec (c : Context) (w : World) :
    (c.l ≠ [] → resolveLanguage c w = ToUpperCaseFirst c.l)
    ∧ (c.l = [] → resolveLanguage c w = (ReadSettings w).Language)
    ∧ (c.l = [] → ∀ u : User, w.stored = some u → resolveLanguage c w = u.Language)
    ∧ (c.l = [] → w.stored = none → resolveLanguage c w = [])
    ∧ (∀ (b : Nat) (rest : GoString),
        ToUpperCaseFirst (b :: rest) = (if 97 ≤ b ∧ b ≤ 122 then b - 32 else b) :: rest)
    ∧ ToUpperCaseFirst (ascii "go") = ascii "Go"
    ∧ ToUpperCaseFirst (ascii "Go") = ascii "Go" := by
  refine ⟨?_, ?_, ?_, ?_, ?_, ?_, ?_⟩
  · intro h
    have hpos : c.l.length > 0 := List.length_pos.2 h
    unfold resolveLanguage
    rw [if_pos hpos]
  · intro h
    unfold resolveLanguage
    rw [h]
    rfl
  · intro h u hu
    unfold resolveLanguage ReadSettings
    rw [h, hu]
    rfl
  · intro h hs
    unfold resolveLanguage ReadSettings
    rw [h, hs]
    rfl
  · intro b rest
    rfl
  · decide
  · decide

/-- C8: with at least one argument `languageCommand` sets the `Language` of the
settings to the first argument, writes the settings and exits with code 0; with
no argument it prints the usage message and exits with code 13, and the
settings, in memory and stored, are as before and were not written. -/
theorem languageCommand_spec (arg : GoString) (rest : List GoString) (l : GoString) (r : Bool)
    (w : World) :
    languageCommand { args := arg :: rest, l := l, r := r } w
      = ({ w with
            s := { Language := arg }
            stored := some { Language := arg }
            trace := w.trace ++ [Event.writeSettings { Language := arg }] },
          Outcome.exited 0)
    ∧ languageCommand { args := [], l := l, r := r } w
      = ({ w with trace := w.trace ++ [Event.print (ascii "Please provide a language!\n")] },
          Outcome.exited 13) :=
  ⟨rfl, rfl⟩

/-! ## The prompt and the reprompt loop -/

theorem getSelectionFromUser_eq (env : Env) (w : World) :
    getSelectionFromUser env w
      = ((env.stdin w.reads).getD 0,
          { w with
            reads := w.reads + 1
            trace := w.trace
              ++ [Event.print (ascii "Enter selection number: "), Event.scan (env.stdin w.reads)] })
    := by
  simp [getSelectionFromUser, Print, World.emit]

theorem nthInput_shift (env : Env) (r : Nat) (input : Int) (j : Nat) :
    nthInput env (r + 1) ((env.stdin r).getD 0) j = nthInput env r input (j + 1) := by
  cases j with
  | zero => simp [nthInput]
  | succ j =>
    simp only [nthInput]
    rw [show r + 1 + j = r + (j + 1) from by omega]

theorem selectionLoop_valid (env : Env) (matched : List GoString) (fuel : Nat) (input : Int)
    (w : World) (h : validIndex env.overflow input matched = true) :
    selectionLoop env matched fuel input w = some (input, w) := by
  unfold selectionLoop
  rw [if_pos h]

theorem selectionLoop_invalid (env : Env) (matched : List GoString) (fuel : Nat) (input : Int)
    (w : World) (h : validIndex env.overflow input matched = false) :
    selectionLoop env matched (fuel + 1) input w
      = selectionLoop env matched fuel ((env.stdin w.reads).getD 0)
          { w with
            reads := w.reads + 1
            trace := w.trace
              ++ [Event.print (ascii "U cannot choose a number which is not in the list\n"),
                  Event.print (ascii "Enter selection number: "),
                  Event.scan (env.stdin w.reads)] } := by
  rw [selectionLoop, if_neg (by rw [h]; decide)]
  simp only [getSelectionFromUser_eq]
  simp [Println, World.emit, rejection]
  rfl

theorem selectionLoop_settles (env : Env) (matched : List GoString) :
    ∀ (k fuel : Nat) (input : Int) (w : World), k ≤ fuel →
      (∀ j, j < k → validIndex env.overflow (nthInput env w.reads input j) matched = false) →
      validIndex env.overflow (nthInput env w.reads input k) matched = true →
      selectionLoop env matched fuel input w
        = some (nthInput env w.reads input k,
            { w with reads := w.reads + k, trace := w.trace ++ loopTrace env w.reads k }) := by
  intro k
  induction k with
  | zero =>
    intro fuel input w _ _ hacc
    rw [selectionLoop_valid env matched fuel input w hacc]
    simp [nthInput, loopTrace]
  | succ k ih =>
    intro fuel input w hfuel hrej hacc
    cases fuel with
    | zero => omega
    | succ fuel =>
      have h0 : validIndex env.overflow input matched = false := hrej 0 (Nat.succ_pos k)
      rw [selectionLoop_invalid env matched fuel input w h0]
      rw [ih fuel _ _ (Nat.le_of_succ_le_succ hfuel)]
      · simp only [nthInput_shift env w.reads input k]
        simp [loopTrace, Nat.add_assoc, Nat.add_comm 1 k]
      · intro j hj
        simp only [nthInput_shift env w.reads input j]
        exact hrej (j + 1) (Nat.succ_lt_succ hj)
      · simp only [nthInput_shift env w.reads input k]
        exact hacc

theorem nthInput_readValue (env : Env) (w : World) (j : Nat) :
    nthInput env (w.reads + 1) (readValue env w 0) j = readValue env w j := by
  cases j with
  | zero => rfl
  | succ j =>
    simp only [nthInput, readValue]
    rw [show w.reads + 1 + j = w.reads + (j + 1) from by omega]

theorem promptSelection_settles (env : Env) (matched : List GoString) (w : World)
    (fuel k : Nat) (hfuel : k ≤ fuel)
    (hrej : ∀ j, j < k → validIndex env.overflow (readValue env w j) matched = false)
    (hacc : validIndex env.overflow (readValue env w k) matched = true) :
    promptSelection env matched fuel w
      = some (readValue env w k,
          { w with
            reads := w.reads + (k + 1)
            trace := w.trace ++ promptTrace env w.reads k }) := by
  unfold promptSelection
  simp only [getSelectionFromUser_eq]
  have hv0 : (env.stdin w.reads).getD 0 = readValue env w 0 := rfl
  rw [hv0, selectionLoop_settles env matched k fuel _ _ hfuel]
  · simp only [nthInput_readValue]
    simp [promptTrace, Nat.add_assoc, Nat.add_comm 1 k]
  · intro j hj
    simp only [nthInput_readValue]
    exact hrej j hj
  · simp only [nthInput_readValue]
    exact hacc

theorem loopTrace_count_rejection (env : Env) :
    ∀ (k r : Nat),
      (loopTrace env r k).count
        (Event.print (ascii "U cannot choose a number which is not in the list\n")) = k := by
  intro k
  induction k with
  | zero =>
    intro r
    rfl
  | succ k ih =>
    intro r
    rw [loopTrace, List.count_append, ih]
    have h3 : List.count
        (Event.print (ascii "U cannot choose a number which is not in the list\n"))
        [Event.print (ascii "U cannot choose a number which is not in the list\n"),
          Event.print (ascii "Enter selection number: "), Event.scan (env.stdin r)] = 1 := by
      rw [List.count_cons_self, List.count_cons_of_ne (by decide),
        List.count_cons_of_ne (by simp), List.count_nil]
    omega

theorem loopTrace_length (env : Env) : ∀ (k r : Nat), (loopTrace env r k).length = 3 * k := by
  intro k
  induction k with
  | zero =>
    intro r
    rfl
  | succ k ih =>
    intro r
    rw [loopTrace, List.length_append, ih]
    simp only [List.length_cons, List.length_nil]
    omega

theorem selectionLoop_effects (env : Env) (matched : List GoString) :
    ∀ (fuel : Nat) (input : Int) (w : World) (i : Int) (w' : World),
      selectionLoop env matched fuel input w = some (i, w') →
      validIndex env.overflow i matched = true ∧ w'.s = w.s ∧ w'.stored = w.stored
        ∧ ∃ extra, w'.trace = w.trace ++ extra ∧ ∀ e ∈ extra, isPromptEvent e = true := by
  intro fuel
  induction fuel with
  | zero =>
    intro input w i w' h
    cases hv : validIndex env.overflow input matched with
    | true =>
      rw [selectionLoop_valid env matched 0 input w hv] at h
      simp only [Option.some.injEq, Prod.mk.injEq] at h
      obtain ⟨hi, hw⟩ := h
      subst hi
      subst hw
      exact ⟨hv, rfl, rfl, [], by simp, by simp⟩
    | false =>
      unfold selectionLoop at h
      rw [if_neg (by rw [hv]; decide)] at h
      exact absurd h (by simp)
  | succ fuel ih =>
    intro input w i w' h
    cases hv : validIndex env.overflow input matched with
    | true =>
      rw [selectionLoop_valid env matched (fuel + 1) input w hv] at h
      simp only [Option.some.injEq, Prod.mk.injEq] at h
      obtain ⟨hi, hw⟩ := h
      subst hi
      subst hw
      exact ⟨hv, rfl, rfl, [], by simp, by simp⟩
    | false =>
      rw [selectionLoop_invalid env matched fuel input w hv] at h
      obtain ⟨hvalid, hs, hstored, extra, htrace, hall⟩ := ih _ _ _ _ h
      refine ⟨hvalid, hs, hstored, ?_⟩
      refine ⟨[Event.print (ascii "U cannot choose a number which is not in the list\n"),
          Event.print (ascii "Enter selection number: "), Event.scan (env.stdin w.reads)]
          ++ extra, ?_, ?_⟩
      · rw [htrace]
        simp
      · intro e he
        rw [List.mem_append] at he
        rcases he with he | he
        · simp only [List.mem_cons, List.mem_singleton, List.not_mem_nil, or_false] at he
          rcases he with he | he | he
          · rw [he]
            decide
          · rw [he]
            decide
          · rw [he]
            rfl
        · exact hall e he

theorem promptSelection_effects (env : Env) (matched : List GoString) (fuel : Nat) (w : World)
    (i : Int) (w' : World) (h : promptSelection env matched fuel w = some (i, w')) :
    validIndex env.overflow i matched = true ∧ w'.s = w.s ∧ w'.stored = w.stored
      ∧ ∃ prompts, w'.trace = w.trace ++ prompts ∧ ∀ e ∈ prompts, isPromptEvent e = true := by
  unfold promptSelection at h
  simp only [getSelectionFromUser_eq] at h
  obtain ⟨hvalid, hs, hstored, extra, htrace, hall⟩ := selectionLoop_effects env matched _ _ _ _ _ h
  refine ⟨hvalid, hs, hstored, ?_⟩
  refine ⟨[Event.print (ascii "Enter selection number: "), Event.scan (env.stdin w.reads)]
      ++ extra, ?_, ?_⟩
  · rw [htrace]
    simp
  · intro e he
    rw [List.mem_append] at he
    rcases he with he | he
    · simp only [List.mem_cons, List.mem_singleton, List.not_mem_nil, or_false] at he
      rcases he with he | he
      · rw [he]
        decide
      · rw [he]
        rfl
    · exact hall e he

theorem indexGo_zero (x : GoString) (xs : List GoString) : indexGo (x :: xs) 0 = some x := by
  unfold indexGo
  rw [if_pos]
  · rfl
  · constructor
    · exact Int.le_refl 0
    · simp only [List.length_cons]
      push_cast
      omega

/-- C9: the reprompt loop settles on the first index that `validIndex` accepts. When
the first `k` values read are rejected and the next one is accepted, the prompt
and loop of `searchCommand` end with that value as the selection, after `k + 1`
reads, having printed the prompt before every read and the rejection message
exactly `k` times; `k` is arbitrary (any bound `fuel` on the iterations that is
at least `k` gives this result), so the loop tolerates any number of rejected
indices. -/
theorem reprompt_first_valid (env : Env) (matched : List GoString) (w : World)
    (fuel k : Nat) (hfuel : k ≤ fuel)
    (hrej : ∀ j, j < k → validIndex env.overflow (readValue env w j) matched = false)
    (hacc : validIndex env.overflow (readValue env w k) matched = true) :
    promptSelection env matched fuel w
      = some (readValue env w k,
          { w with
            reads := w.reads + (k + 1)
            trace := w.trace ++ promptTrace env w.reads k })
    ∧ (promptTrace env w.reads k).count
        (Event.print (ascii "U cannot choose a number which is not in the list\n")) = k
    ∧ (promptTrace env w.reads k).length = 2 + 3 * k := by
  refine ⟨promptSelection_settles env matched w fuel k hfuel hrej hacc, ?_, ?_⟩
  · unfold promptTrace
    rw [List.count_append, loopTrace_count_rejection]
    have h2 : List.count
        (Event.print (ascii "U cannot choose a number which is not in the list\n"))
        [Event.print (ascii "Enter selection number: "), Event.scan (env.stdin w.reads)] = 0 := by
      rw [List.count_cons_of_ne (by decide), List.count_cons_of_ne (by simp), List.count_nil]
    omega
  · unfold promptTrace
    rw [List.length_append, loopTrace_length]
    simp only [List.length_cons, List.length_nil]

/-- C9 at a concrete input: two tasks to choose from and the answers 7, -5, 1. -/
theorem reprompt_first_valid_witness :
    promptSelection (demoEnv [some 7, some (-5), some 1])
        [ascii "A+B", ascii "Abundant numbers"] 2 freshWorld
      = some (1,
          { freshWorld with
            reads := 3
            trace := promptTrace (demoEnv [some 7, some (-5), some 1]) 0 2 })
    ∧ (promptTrace (demoEnv [some 7, some (-5), some 1]) 0 2).count
        (Event.print (ascii "U cannot choose a number which is not in the list\n")) = 2
    ∧ (promptTrace (demoEnv [some 7, some (-5), some 1]) 0 2).length = 2 + 3 * 2 :=
  reprompt_first_valid (demoEnv [some 7, some (-5), some 1])
    [ascii "A+B", ascii "Abundant numbers"] freshWorld 2 2 (Nat.le_refl 2)
    (by decide) (by decide)

/-- C10: index 0 is accepted exactly when there is something to choose, so a failed
read ends the reprompt loop. For a non-empty list of matches: `validIndex(0, opts)`
holds if and only if `opts` is not empty; when the read number `k` stores nothing
and the values read before it are rejected, the selection is 0, which is the
position of the first match; when some read stores nothing or yields an
accepted index, the prompt and loop end after at most that many rejections,
with an accepted index; and `getSelectionFromUser` returns 0 when the read
stores nothing. -/
theorem failed_read_selects_first (env : Env) (matched : List GoString) (w : World) (k : Nat)
    (hne : matched ≠ []) :
    (∀ (overflow : Int) (opts : List GoString), validIndex overflow 0 opts = true ↔ opts ≠ [])
    ∧ (env.stdin (w.reads + k) = none →
        (∀ j, j < k → validIndex env.overflow (readValue env w j) matched = false) →
        ∀ fuel, k ≤ fuel →
          promptSelection env matched fuel w
            = some (0,
                { w with
                  reads := w.reads + (k + 1)
                  trace := w.trace ++ promptTrace env w.reads k })
          ∧ indexGo matched 0 = matched.head?)
    ∧ ((env.stdin (w.reads + k) = none
          ∨ validIndex env.overflow (readValue env w k) matched = true) →
        ∃ n, n ≤ k ∧ ∀ fuel, n ≤ fuel →
          ∃ i w', promptSelection env matched fuel w = some (i, w')
            ∧ validIndex env.overflow i matched = true
            ∧ w'.reads = w.reads + (n + 1))
    ∧ (env.stdin w.reads = none → (getSelectionFromUser env w).1 = 0) := by
  have hzero : ∀ j, env.stdin (w.reads + j) = none →
      validIndex env.overflow (readValue env w j) matched = true := by
    intro j hj
    have hv : readValue env w j = 0 := by
      unfold readValue
      rw [hj]
      rfl
    rw [hv]
    exact (validIndex_zero env.overflow matched).2 hne
  refine ⟨validIndex_zero, ?_, ?_, ?_⟩
  · intro hfail hrej fuel hfuel
    have hv : readValue env w k = 0 := by
      unfold readValue
      rw [hfail]
      rfl
    constructor
    · rw [promptSelection_settles env matched w fuel k hfuel hrej (hzero k hfail), hv]
    · cases matched with
      | nil => exact absurd rfl hne
      | cons x xs => exact indexGo_zero x xs
  · intro hk
    have hacc : validIndex env.overflow (readValue env w k) matched = true := by
      rcases hk with hk | hk
      · exact hzero k hk
      · exact hk
    have hex : ∃ n, validIndex env.overflow (readValue env w n) matched = true := ⟨k, hacc⟩
    refine ⟨Nat.find hex, Nat.find_min' hex hacc, ?_⟩
    intro fuel hfuel
    have hrej : ∀ j, j < Nat.find hex →
        validIndex env.overflow (readValue env w j) matched = false := by
      intro j hj
      have hnot := Nat.find_min hex hj
      cases hb : validIndex env.overflow (readValue env w j) matched with
      | true => exact absurd hb hnot
      | false => rfl
    refine ⟨readValue env w (Nat.find hex), _,
      promptSelection_settles env matched w fuel (Nat.find hex) hfuel hrej (Nat.find_spec hex),
      Nat.find_spec hex, rfl⟩
  · intro hfail
    rw [getSelectionFromUser_eq, hfail]
    rfl

/-- C10 at a concrete input: two tasks to choose from, the answer 9, then end of input. -/
theorem failed_read_selects_first_witness :
    [ascii "A+B", ascii "Abundant numbers"] ≠ []
    ∧ (demoEnv [some 9]).stdin (freshWorld.reads + 1) = none
    ∧ promptSelection (demoEnv [some 9]) [ascii "A+B", ascii "Abundant numbers"] 1 freshWorld
      = some (0, { freshWorld with reads := 2, trace := promptTrace (demoEnv [some 9]) 0 1 })
    ∧ indexGo [ascii "A+B", ascii "Abundant numbers"] 0 = some (ascii "A+B") :=
  ⟨by decide, by decide,
    ((failed_read_selects_first (demoEnv [some 9]) [ascii "A+B", ascii "Abundant numbers"]
      freshWorld 1 (by decide)).2.1 (by decide) (by decide) 1 (Nat.le_refl 1)).1,
    ((failed_read_selects_first (demoEnv [some 9]) [ascii "A+B", ascii "Abundant numbers"]
      freshWorld 1 (by decide)).2.1 (by decide) (by decide) 1 (Nat.le_refl 1)).2⟩

/-! ## The end of a search -/

theorem printOptions_stored (matched : List GoString) (w : World) :
    (printOptions matched w).1.stored = w.stored ∧ (printOptions matched w).1.s = w.s := by
  cases matched with
  | nil => exact ⟨rfl, rfl⟩
  | cons x xs =>
    rw [printOptions_of_ne_nil (x :: xs) w (List.cons_ne_nil x xs)]
    exact ⟨rfl, rfl⟩

theorem resolveLanguage_congr (c : Context) (w w' : World) (h : w'.stored = w.stored) :
    resolveLanguage c w' = resolveLanguage c w := by
  unfold resolveLanguage ReadSettings
  rw [h]

/-- Print with `-r`, open without, for a selection inside the list. Let the search
term match at least one task, let the prompt and reprompt loop settle on the
index `i` in the world `w2`, and let `matches[i]` exist and be `task`. With `-r`, `searchCommand` prints the address built
for `task` and the resolved language as its last effect and returns; without
`-r`, it opens the page for the same pair as its last effect and exits with
code 0. Everything before that last effect is the option lines followed by
prompts, rejection messages and reads, so with `-r` nothing is opened and
without `-r` no address is printed. -/
theorem search_prints_or_opens (env : Env) (fuel : Nat) (c : Context) (w : World)
    (term : GoString) (rest : List GoString) (i : Int) (w2 : World) (task : GoString)
    (hargs : c.args = term :: rest)
    (hne : match_ env.unicodeLower env.items term ≠ [])
    (hsel : promptSelection env (match_ env.unicodeLower env.items term) fuel
        (printOptions (match_ env.unicodeLower env.items term) w).1 = some (i, w2))
    (htask : indexGo (match_ env.unicodeLower env.items term) i = some task) :
    (c.r = true →
      searchCommand env fuel c w
        = some ({ w2 with
                  trace := w2.trace
                    ++ [Event.print (env.WebsiteURL task (resolveLanguage c w) ++ ascii "\n")] },
                Outcome.returned))
    ∧ (c.r = false →
      searchCommand env fuel c w
        = some ({ w2 with
                  trace := w2.trace ++ [Event.openWebsite task (resolveLanguage c w)] },
                Outcome.exited 0))
    ∧ w2.s = w.s ∧ w2.stored = w.stored
    ∧ ∃ prompts,
        w2.trace = w.trace
          ++ (match_ env.unicodeLower env.items term).enum.map
              (fun im => Event.print (optionLine im.1 im.2))
          ++ prompts
        ∧ ∀ e ∈ prompts, isPromptEvent e = true := by
  have hprint := printOptions_of_ne_nil (match_ env.unicodeLower env.items term) w hne
  have hlang : resolveLanguage c (printOptions (match_ env.unicodeLower env.items term) w).1
      = resolveLanguage c w :=
    resolveLanguage_congr c w _ (printOptions_stored _ w).1
  obtain ⟨_, hs, hstored, prompts, htrace, hall⟩ :=
    promptSelection_effects env _ fuel _ i w2 hsel
  have hrun : searchCommand env fuel c w
      = some (finishSearch env c (match_ env.unicodeLower env.items term) i
          (resolveLanguage c w) w2) := by
    rw [hprint] at hsel hlang
    unfold searchCommand
    simp only [hargs, hprint, hsel, hlang]
  refine ⟨?_, ?_, ?_, ?_, prompts, ?_, hall⟩
  · intro hr
    rw [hrun]
    unfold finishSearch
    rw [if_pos hr, htask]
    rfl
  · intro hr
    rw [hrun]
    unfold finishSearch
    rw [if_neg (by rw [hr]; decide), htask]
    rfl
  · rw [hs]
    exact (printOptions_stored _ w).2
  · rw [hstored]
    exact (printOptions_stored _ w).1
  · rw [htrace, hprint]

/-- A selection inside the list, at a concrete input: the term `a` matches two tasks
of the demo catalog, the user answers 1, the `-l` value is `go`; once with `-r`
and once without. -/
theorem search_prints_or_opens_witness :
    match_ id (demoEnv [some 1]).items (ascii "a") = [ascii "A+B", ascii "Abundant numbers"]
    ∧ indexGo (match_ id (demoEnv [some 1]).items (ascii "a")) 1 = some (ascii "Abundant numbers")
    ∧ searchCommand (demoEnv [some 1]) 0 { args := [ascii "a"], l := ascii "go", r := true }
        freshWorld
      = some ({ freshWorld with
                reads := 1
                trace := [Event.print (ascii "0) A+B \n"),
                  Event.print (ascii "1) Abundant numbers \n"),
                  Event.print (ascii "Enter selection number: "), Event.scan (some 1),
                  Event.print (ascii "Abundant numbers#Go\n")] },
              Outcome.returned)
    ∧ searchCommand (demoEnv [some 1]) 0 { args := [ascii "a"], l := ascii "go", r := false }
        freshWorld
      = some ({ freshWorld with
                reads := 1
                trace := [Event.print (ascii "0) A+B \n"),
                  Event.print (ascii "1) Abundant numbers \n"),
                  Event.print (ascii "Enter selection number: "), Event.scan (some 1),
                  Event.openWebsite (ascii "Abundant numbers") (ascii "Go")] },
              Outcome.exited 0) :=
  ⟨by decide, by decide,
    (search_prints_or_opens (demoEnv [some 1]) 0
      { args := [ascii "a"], l := ascii "go", r := true } freshWorld (ascii "a") [] 1
      { freshWorld with
        reads := 1
        trace := [Event.print (ascii "0) A+B \n"),
          Event.print (ascii "1) Abundant numbers \n"),
          Event.print (ascii "Enter selection number: "), Event.scan (some 1)] }
      (ascii "Abundant numbers") rfl (by decide) (by decide) (by decide)).1 rfl,
    (search_prints_or_opens (demoEnv [some 1]) 0
      { args := [ascii "a"], l := ascii "go", r := false } freshWorld (ascii "a") [] 1
      { freshWorld with
        reads := 1
        trace := [Event.print (ascii "0) A+B \n"),
          Event.print (ascii "1) Abundant numbers \n"),
          Event.print (ascii "Enter selection number: "), Event.scan (some 1)] }
      (ascii "Abundant numbers") rfl (by decide) (by decide) (by decide)).2.1 rfl⟩

/-- C6, evaluated at an accepted selection for which the code does neither. The
term `a` matches two tasks of the demo catalog and the user answers `-1`;
`validIndex` accepts it, so `-1` is the selection the reprompt loop settles on.
With `-r` the run ends in the panic of `matches[-1]` and its effects are the two
option lines, the prompt and the read: no address is printed. Without `-r` the
run ends in the same panic with the same effects: nothing is opened. -/
theorem search_negative_selection :
    match_ id (demoEnv [some (-1)]).items (ascii "a") = [ascii "A+B", ascii "Abundant numbers"]
    ∧ promptSelection (demoEnv [some (-1)]) [ascii "A+B", ascii "Abundant numbers"] 0
        (printOptions [ascii "A+B", ascii "Abundant numbers"] freshWorld).1
      = some (-1,
          { freshWorld with
            reads := 1
            trace := [Event.print (ascii "0) A+B \n"),
              Event.print (ascii "1) Abundant numbers \n"),
              Event.print (ascii "Enter selection number: "), Event.scan (some (-1))] })
    ∧ searchCommand (demoEnv [some (-1)]) 0 { args := [ascii "a"], l := ascii "go", r := true }
        freshWorld
      = some ({ freshWorld with
                reads := 1
                trace := [Event.print (ascii "0) A+B \n"),
                  Event.print (ascii "1) Abundant numbers \n"),
                  Event.print (ascii "Enter selection number: "), Event.scan (some (-1))] },
              Outcome.panicked)
    ∧ searchCommand (demoEnv [some (-1)]) 0 { args := [ascii "a"], l := ascii "go", r := false }
        freshWorld
      = some ({ freshWorld with
                reads := 1
                trace := [Event.print (ascii "0) A+B \n"),
                  Event.print (ascii "1) Abundant numbers \n"),
                  Event.print (ascii "Enter selection number: "), Event.scan (some (-1))] },
              Outcome.panicked) := by
  decide

end Rosetta
